import Mathlib

/-!
Verification of the Lebanon Tourism Explorer data pipeline
(`assignment_app.py`): data cleaning (`load_data`), interactive filtering,
KPI aggregation, scatter-spec construction, and CSV export.

Numeric cell values are modelled as rationals; a cell of the raw table that
pandas `to_numeric(errors="coerce")` turns into `NaN` (unparseable or
missing) is modelled as `none`, and a missing `Town` cell likewise.
Additional source columns beyond the four named ones are carried through
unchanged as a list of raw cell strings (`extras`), mirroring how the app
keeps every column of the source frame.
-/

namespace Tourism

/-- Python `str.strip` whitespace set (space, tab, newline, return,
vertical tab, form feed). -/
def isPySpace (c : Char) : Bool :=
  c = ' ' || c = '\t' || c = '\n' || c = '\r' || c = '\x0b' || c = '\x0c'

/-- Strip leading and trailing whitespace from a character list. -/
def stripChars (l : List Char) : List Char :=
  ((l.dropWhile isPySpace).reverse.dropWhile isPySpace).reverse

/-- Model of Python `str.strip()`, as applied by
`df["Town"].astype(str).str.strip()`. -/
def pyStrip (s : String) : String := ⟨stripChars s.data⟩

/-- One raw row of the source table after `pd.read_csv` and the
`pd.to_numeric(..., errors="coerce")` coercion of the three numeric
columns: `none` stands for a `NaN` cell (missing or unparseable). -/
structure RawRow where
  town : Option String
  hotels : Option ℚ
  restaurants : Option ℚ
  tourismIndex : Option ℚ
  extras : List String
  deriving DecidableEq

/-- One cleaned record, as produced by `load_data` after `dropna` and
town stripping. -/
structure Record where
  town : String
  hotels : ℚ
  restaurants : ℚ
  tourismIndex : ℚ
  extras : List String
  deriving DecidableEq

/-- A raw row survives `dropna(subset=[Town, hotels, restaurants,
tourismIndex])` iff all four critical cells are present. -/
def keepRaw (r : RawRow) : Bool :=
  r.town.isSome && (r.hotels.isSome && (r.restaurants.isSome && r.tourismIndex.isSome))

/-- The cleaned record a surviving raw row becomes: town stripped, numeric
fields taken as parsed, extra columns passed through. -/
def cleanRaw (r : RawRow) : Record :=
  { town := pyStrip (r.town.getD "")
    hotels := r.hotels.getD 0
    restaurants := r.restaurants.getD 0
    tourismIndex := r.tourismIndex.getD 0
    extras := r.extras }

/-- The cleaning stage of `load_data` (lines 28-35): coerce numerics (already
reflected in the `Option` fields), drop rows with a missing critical field,
then strip the town of the surviving rows. -/
def cleanData (rs : List RawRow) : List Record :=
  rs.filterMap fun r =>
    match r.town, r.hotels, r.restaurants, r.tourismIndex with
    | some t, some h, some re, some ti =>
        some { town := pyStrip t, hotels := h, restaurants := re
               tourismIndex := ti, extras := r.extras }
    | _, _, _, _ => none

/-- The bar-chart sort key selector (sidebar radio). -/
inductive SortField where
  | hotels
  | town
  deriving DecidableEq

/-- The sidebar state driving one interaction, per the spec's
`FilterState`. -/
structure FilterState where
  selectedTowns : List String
  minRestaurants : ℚ
  sortField : SortField
  sortAscending : Bool
  trendlineRequested : Bool
  deriving DecidableEq

/-- `df.copy()` (line 62): a fresh frame with the same rows. -/
def dfCopy (D : List Record) : List Record := D.map fun r => r

/-- Membership test `filtered["Town"].isin(selected_towns)` (line 64). -/
def townPred (F : FilterState) (r : Record) : Bool :=
  F.selectedTowns.contains r.town

/-- Threshold test `filtered["Total number of restaurants"] >=
min_restaurants` (line 65). -/
def restPred (F : FilterState) (r : Record) : Bool :=
  decide (F.minRestaurants ≤ r.restaurants)

/-- The filter section (lines 62-65): copy the frame, apply the town filter
only when the selection is non-empty (Python truthiness of the list), then
apply the inclusive restaurant threshold. -/
def applyFilters (D : List Record) (F : FilterState) : List Record :=
  (if F.selectedTowns.isEmpty then dfCopy D
   else (dfCopy D).filter (townPred F)).filter (restPred F)

/-- The two frame bindings live at the end of the filter section. -/
structure AppState where
  df : List Record
  filtered : List Record

/-- Running the filter section on the ambient state: `df.copy()` and the
boolean-mask selections each build a fresh frame, so the binding `df` is
left untouched and `filtered` is rebound to the filter result. -/
def runFilterSection (s : AppState) (F : FilterState) : AppState :=
  { df := s.df, filtered := applyFilters s.df F }

/-- `Series.sum()` as pandas computes it: a left fold from zero. -/
def seriesSum (l : List ℚ) : ℚ := l.foldl (· + ·) 0

/-- `Series.mean()` : sum divided by length. -/
def seriesMean (l : List ℚ) : ℚ := seriesSum l / (l.length : ℚ)

/-- `Series.nunique()` : number of distinct values. -/
def seriesNunique (l : List String) : ℕ := l.dedup.length

/-- Python `int(...)` on a rational: truncation toward zero. -/
def intTrunc (q : ℚ) : ℤ := if 0 ≤ q then ⌊q⌋ else ⌈q⌉

/-- KPI 1 (line 85): `filtered["Town"].nunique()`. -/
def kpiTownCount (D : List Record) : ℕ :=
  seriesNunique (D.map (·.town))

/-- KPI 2 (line 86): `int(filtered["Total number of hotels"].sum())`. -/
def kpiHotelsSum (D : List Record) : ℤ :=
  intTrunc (seriesSum (D.map (·.hotels)))

/-- KPI 3 (line 87): `filtered["Tourism Index"].mean()`. -/
def kpiAvgTourism (D : List Record) : ℚ :=
  seriesMean (D.map (·.tourismIndex))

/-- The declarative scatter specification handed to the presentation layer
(lines 114-126): axis bindings, hover label, optional trendline request and
the advisory notice flag. -/
structure ScatterSpec where
  data : List Record
  xField : String
  yField : String
  hoverName : String
  trendline : Option String
  advisory : Bool
  deriving DecidableEq

/-- Building the scatter spec: `trend = "ols" if (show_trendline and
HAS_SM) else None` and the `st.info` advisory shown exactly when the
trendline is requested but `statsmodels` is unavailable. -/
def buildScatter (D : List Record) (trendlineRequested regressionAvailable : Bool) :
    ScatterSpec :=
  { data := D
    xField := "Total number of restaurants"
    yField := "Tourism Index"
    hoverName := "Town"
    trendline := if trendlineRequested && regressionAvailable then some "ols" else none
    advisory := trendlineRequested && !regressionAvailable }

/-- Sample raw row with a whitespace-only (but present) town cell. -/
def wsTownRow : RawRow :=
  { town := some "  ", hotels := some 1, restaurants := some 2
    tourismIndex := some 3, extras := [] }

/-- Sample cleaned dataset (the spec's own scenario rows). -/
def sampleD : List Record :=
  [ { town := "Beirut", hotels := 120, restaurants := 300
      tourismIndex := mkRat 852 10, extras := [] }
  , { town := "Byblos", hotels := 40, restaurants := 90
      tourismIndex := mkRat 701 10, extras := [] } ]

/-- Sample filter state with every town selected implicitly (empty
selection) and a threshold of 100. -/
def sampleF : FilterState :=
  { selectedTowns := [], minRestaurants := 100, sortField := .hotels
    sortAscending := false, trendlineRequested := true }

/-- Dataset whose hotel count is fractional, exposing the `int(...)`
truncation in the hotels KPI. -/
def fracHotelsD : List Record :=
  [ { town := "A", hotels := mkRat 1 2, restaurants := 3
      tourismIndex := 5, extras := [] } ]

/-- The digit character for a value below ten. -/
def digitChar (d : ℕ) : Char := Char.ofNat (d + 48)

/-- The value of a digit character. -/
def charToDigit (c : Char) : ℕ := c.toNat - 48

/-- Little-endian base-10 digits computed with explicit fuel, so the
function is structurally recursive and evaluates by kernel reduction. -/
def toDigitsRev : ℕ → ℕ → List ℕ
  | 0, _ => []
  | fuel + 1, n => if n = 0 then [] else n % 10 :: toDigitsRev fuel (n / 10)

/-- Big-endian decimal digit characters of `n` (empty for zero). -/
def natToChars (n : ℕ) : List Char := (toDigitsRev n n).reverse.map digitChar

/-- Decimal digit characters of an integer part (`"0"` for zero). -/
def intChars (n : ℕ) : List Char := if n = 0 then ['0'] else natToChars n

/-- Left-pad a digit string with zeros to width `e`. -/
def padZeros (e : ℕ) (l : List Char) : List Char :=
  List.replicate (e - l.length) '0' ++ l

/-- The numeric value of a big-endian digit-character string. -/
def digitsVal (l : List Char) : ℕ := Nat.ofDigits 10 (l.reverse.map charToDigit)

/-- The integer mantissa of `q` at scale `10 ^ q.den`; the scale is exact
whenever `q.den` divides `10 ^ q.den`, i.e. whenever `q` has a finite
decimal expansion (as every IEEE-float cell value does). -/
def renderNum (q : ℚ) : ℤ := q.num * ((10 ^ q.den / q.den : ℕ) : ℤ)

/-- The unsigned decimal text of `q`: integer part, dot, `q.den` fraction
digits. -/
def renderBody (q : ℚ) : List Char :=
  intChars ((renderNum q).natAbs / 10 ^ q.den) ++
    '.' :: padZeros q.den (natToChars ((renderNum q).natAbs % 10 ^ q.den))

/-- Decimal rendering of one numeric cell, as the CSV serializer writes a
float column: optional sign, digits, decimal point. Deterministic. -/
def renderRat (q : ℚ) : String :=
  ⟨if renderNum q < 0 then '-' :: renderBody q else renderBody q⟩

/-- Split a character list at its dots. -/
def splitOnDot : List Char → List (List Char)
  | [] => [[]]
  | ch :: rest =>
    if ch = '.' then [] :: splitOnDot rest
    else
      match splitOnDot rest with
      | [] => [[ch]]
      | h :: t => (ch :: h) :: t

/-- Parse an unsigned decimal numeral (digits, optionally dot digits). -/
def parseUnsigned (l : List Char) : Option ℚ :=
  match splitOnDot l with
  | [i] => if i.all Char.isDigit then some ((digitsVal i : ℚ)) else none
  | [i, f] =>
    if i.all Char.isDigit && f.all Char.isDigit then
      some ((digitsVal i : ℚ) + (digitsVal f : ℚ) / (10 ^ f.length : ℚ))
    else none
  | _ => none

/-- Parse a decimal numeral with an optional leading minus sign. -/
def parseRat (s : String) : Option ℚ :=
  if s.data.head? = some '-' then (parseUnsigned s.data.tail).map (fun x => -x)
  else parseUnsigned s.data

/-- `q` has a finite decimal expansion. Every value a float column can
hold satisfies this: a float is `m / 2 ^ k` and `2 ^ k` divides
`10 ^ k`. -/
def isDecimalQ (q : ℚ) : Prop := q.den ∣ 10 ^ q.den

instance decIsDecimalQ (q : ℚ) : Decidable (isDecimalQ q) :=
  inferInstanceAs (Decidable (q.den ∣ 10 ^ q.den))

/-- A filtered view together with the pass-through extra columns of the
source table (§6: additional columns are ignored and passed through). -/
structure Table where
  extraCols : List String
  rows : List Record
  deriving DecidableEq

/-- The four logical columns the spec names, in the app's stable order. -/
def logicalHeader : List String :=
  ["Town", "Total number of hotels", "Total number of restaurants", "Tourism Index"]

/-- One CSV data row in the canonical column arrangement (the four
logical fields before the pass-through cells), with no row-index cell
(`index=False`). The program's actual arrangement follows the source
frame's column order, which `load_data` never rearranges; the
order-generic export is `toCsvRowsAt` below, of which this is the
instance at `canonicalLayout` (see `toCsvRows_eq_canonical`). The
round-trip statement built on this instance is column-order-invariant. -/
def recordToRow (r : Record) : List String :=
  r.town :: renderRat r.hotels :: renderRat r.restaurants ::
    renderRat r.tourismIndex :: r.extras

/-- `filtered.to_csv(index=False)` at row granularity, in the canonical
column arrangement: the header row followed by one row per record. The
program emits the source frame's own column order; this fixes one
concrete arrangement (see `toCsvRowsAt` for the order-generic export). -/
def toCsvRows (t : Table) : List (List String) :=
  (logicalHeader ++ t.extraCols) :: t.rows.map recordToRow

/-- Parse one CSV data row back into a record. -/
def parseRow (row : List String) : Option Record :=
  match row with
  | t :: h :: re :: ti :: extras =>
    match parseRat h, parseRat re, parseRat ti with
    | some hv, some rv, some tv =>
        some { town := t, hotels := hv, restaurants := rv
               tourismIndex := tv, extras := extras }
    | _, _, _ => none
  | _ => none

/-- Parse every data row, failing if any row fails. -/
def parseRows : List (List String) → Option (List Record)
  | [] => some []
  | row :: rest =>
    match parseRow row, parseRows rest with
    | some r, some rs => some (r :: rs)
    | _, _ => none

/-- Parse an exported table: require the four logical header fields,
recover the pass-through columns from the rest of the header, then parse
each data row. -/
def fromCsvRows (rows : List (List String)) : Option Table :=
  match rows with
  | [] => none
  | header :: body =>
    if header.take 4 = logicalHeader then
      (parseRows body).map (fun rs => { extraCols := header.drop 4, rows := rs })
    else none

/-- Sample export table: two records plus one pass-through column. -/
def sampleTable : Table :=
  { extraCols := ["Note"]
    rows :=
      [ { town := "Beirut", hotels := 120, restaurants := 300
          tourismIndex := mkRat 852 10, extras := ["x"] }
      , { town := "Byblos", hotels := 40, restaurants := 90
          tourismIndex := mkRat 701 10, extras := ["y"] } ] }

/-- One column of the cleaned frame: one of the four logical columns, or
the i-th pass-through column of the source. -/
inductive ColId where
  | town
  | hotels
  | restaurants
  | tourismIndex
  | extra (i : ℕ)
  deriving DecidableEq

/-- The header cell a column contributes. -/
def headerName (extraCols : List String) : ColId → Option String
  | .town => some "Town"
  | .hotels => some "Total number of hotels"
  | .restaurants => some "Total number of restaurants"
  | .tourismIndex => some "Tourism Index"
  | .extra i => extraCols[i]?

/-- The data cell a record contributes under a column. -/
def rowCell (r : Record) : ColId → Option String
  | .town => some r.town
  | .hotels => some (renderRat r.hotels)
  | .restaurants => some (renderRat r.restaurants)
  | .tourismIndex => some (renderRat r.tourismIndex)
  | .extra i => r.extras[i]?

/-- The canonical column arrangement: the four logical columns followed
by the `n` pass-through columns. The program's actual arrangement is any
permutation of this — whatever order the source CSV happened to use. -/
def canonicalLayout (n : ℕ) : List ColId :=
  [ColId.town, ColId.hotels, ColId.restaurants, ColId.tourismIndex] ++
    (List.range n).map ColId.extra

/-- `filtered.to_csv(index=False)` at row granularity for a source frame
whose columns stand in the arrangement `L` (the frame's own column
order, which the code never rearranges): the header row followed by one
row per record, each cell drawn from the record under the same
arrangement; no row-index column. -/
def toCsvRowsAt (L : List ColId) (t : Table) : List (List String) :=
  L.filterMap (headerName t.extraCols) ::
    t.rows.map fun r => L.filterMap (rowCell r)

/-- A sample non-canonical source arrangement: the pass-through column
comes first. -/
def scrambledLayout : List ColId :=
  [ColId.extra 0, ColId.town, ColId.hotels, ColId.restaurants, ColId.tourismIndex]

lemma dfCopy_eq (D : List Record) : dfCopy D = D := by
  simp [dfCopy]

lemma seriesSum_from (l : List ℚ) (a : ℚ) : l.foldl (· + ·) a = a + l.sum := by
  induction l generalizing a with
  | nil => simp
  | cons x xs ih => simp [ih, add_assoc]

lemma seriesSum_eq_sum (l : List ℚ) : seriesSum l = l.sum := by
  simp [seriesSum, seriesSum_from]

/-- C2: filtering is idempotent: applying the town filter and the
restaurant-threshold filter to an already-filtered frame changes
nothing. -/
theorem applyFilters_idempotent (D : List Record) (F : FilterState) :
    applyFilters (applyFilters D F) F = applyFilters D F := by
  by_cases h : F.selectedTowns.isEmpty
  · simp only [applyFilters, if_pos h, dfCopy_eq]
    rw [List.filter_eq_self]
    intro a ha
    exact (List.mem_filter.mp ha).2
  · simp only [applyFilters, if_neg h, dfCopy_eq]
    have h1 : ∀ x ∈ ((D.filter (townPred F)).filter (restPred F)), townPred F x = true := by
      intro x hx
      exact (List.mem_filter.mp (List.mem_filter.mp hx).1).2
    rw [List.filter_eq_self.mpr h1, List.filter_eq_self]
    intro a ha
    exact (List.mem_filter.mp ha).2

/-- C3: every record surviving the filters meets the inclusive restaurant
threshold, and the filtered frame is a subsequence of the input (order
preserved). -/
theorem applyFilters_threshold_sublist (D : List Record) (F : FilterState) :
    (∀ r ∈ applyFilters D F, F.minRestaurants ≤ r.restaurants) ∧
      (applyFilters D F).Sublist D := by
  constructor
  · intro r hr
    have h := (List.mem_filter.mp hr).2
    simpa [restPred] using h
  · refine List.Sublist.trans (List.filter_sublist _) ?_
    by_cases h : F.selectedTowns.isEmpty
    · simp [h, dfCopy_eq]
    · simp only [h, if_false]
      exact (List.filter_sublist _).trans (by rw [dfCopy_eq])

/-- Witness for C3 at the spec's sample data: Beirut survives the
threshold-100 filter and the result is a subsequence of the input. -/
theorem applyFilters_threshold_sublist_witness :
    ((100 : ℚ) ≤ ({ town := "Beirut", hotels := 120, restaurants := 300
                    tourismIndex := mkRat 852 10, extras := [] } : Record).restaurants) ∧
      (applyFilters sampleD sampleF).Sublist sampleD :=
  ⟨(applyFilters_threshold_sublist sampleD sampleF).1 _ (by decide),
   (applyFilters_threshold_sublist sampleD sampleF).2⟩

/-- C4: with an empty town selection the town-filter step is skipped
entirely (Python truthiness quirk), so only the threshold filter acts. -/
theorem applyFilters_empty_selection (D : List Record) (F : FilterState)
    (h : F.selectedTowns = []) :
    applyFilters D F = D.filter (restPred F) := by
  simp [applyFilters, h, dfCopy_eq]

/-- Witness for C4: the sample state has an empty selection and the filter
result coincides with the bare threshold filter. -/
theorem applyFilters_empty_selection_witness :
    applyFilters sampleD sampleF = sampleD.filter (restPred sampleF) :=
  applyFilters_empty_selection sampleD sampleF rfl

/-- C9: scatter capability handling: when the trendline is requested,
an unavailable regression backend yields a spec with no trendline and the
advisory flag set, while an available one yields an OLS trendline request. -/
theorem buildScatter_capability (D : List Record) (req caps : Bool) (h : req = true) :
    (caps = false →
      (buildScatter D req caps).trendline = none ∧
        (buildScatter D req caps).advisory = true) ∧
    (caps = true →
      (buildScatter D req caps).trendline = some "ols" ∧
        (buildScatter D req caps).advisory = false) := by
  subst h
  cases caps <;> simp [buildScatter]

/-- Witness for C9 at both capability values. -/
theorem buildScatter_capability_witness :
    ((buildScatter [] true false).trendline = none ∧
      (buildScatter [] true false).advisory = true) ∧
    ((buildScatter [] true true).trendline = some "ols" ∧
      (buildScatter [] true true).advisory = false) :=
  ⟨(buildScatter_capability [] true false rfl).1 rfl,
   (buildScatter_capability [] true true rfl).2 rfl⟩

/-- C1 counterexample: a raw row whose town cell is present but
whitespace-only has an empty town after trimming, yet `load_data` keeps it:
`dropna` runs before `.str.strip()`, so only missing (`NaN`) towns are
dropped and the row survives with town `""`. The claim predicts the row is
absent from the cleaned dataset. -/
theorem cleanData_keeps_whitespace_town :
    pyStrip "  " = "" ∧
      cleanData [wsTownRow] =
        [{ town := "", hotels := 1, restaurants := 2, tourismIndex := 3, extras := [] }] ∧
      cleanData [wsTownRow] ≠ [] := by
  decide

/-- C1 (amended): a raw row is dropped by `load_data` exactly when one of
the three numeric cells is unparseable or the town cell is missing; every
other row is retained, in order, with its town stripped of surrounding
whitespace (a present but whitespace-only town is retained as `""`). -/
theorem cleanData_characterization (rs : List RawRow) :
    cleanData rs = (rs.filter keepRaw).map cleanRaw := by
  induction rs with
  | nil => rfl
  | cons r rest ih =>
    cases ht : r.town <;> cases hh : r.hotels <;> cases hr : r.restaurants <;>
      cases hi : r.tourismIndex <;>
      simp_all [cleanData, List.filterMap_cons, keepRaw, cleanRaw, ht, hh, hr, hi]

/-- C5 counterexample: the hotels KPI is `int(sum)`, which truncates; on a
dataset with a fractional hotel count it differs from the arithmetic sum
the claim asserts. -/
theorem kpiHotelsSum_not_sum :
    fracHotelsD ≠ [] ∧
      ((kpiHotelsSum fracHotelsD : ℚ) ≠ (fracHotelsD.map (·.hotels)).sum) := by
  constructor
  · decide
  · have hfloor : ⌊(1 : ℚ) / 2⌋ = 0 := by
      rw [Int.floor_eq_iff]
      norm_num
    simp only [fracHotelsD, List.map_cons, List.map_nil, List.sum_cons, List.sum_nil,
      kpiHotelsSum, seriesSum, List.foldl_cons, List.foldl_nil, intTrunc, Rat.mkRat_eq_div]
    norm_num [hfloor]

/-- C5 (amended): for every non-empty filtered dataset, `townCount` is the
number of distinct towns, the hotels KPI equals the truncation toward zero
of the arithmetic sum of `hotels` over all records (hence equals the sum
itself whenever that sum is an integer, e.g. for whole-number hotel
counts), and `avgTourismIndex` is the arithmetic mean of `tourismIndex`
over all records. -/
theorem kpi_formulas (D : List Record) (h : D ≠ []) :
    kpiTownCount D = (D.map (·.town)).toFinset.card ∧
      kpiHotelsSum D = intTrunc ((D.map (·.hotels)).sum) ∧
      (∀ z : ℤ, (D.map (·.hotels)).sum = (z : ℚ) →
        (kpiHotelsSum D : ℚ) = (D.map (·.hotels)).sum) ∧
      kpiAvgTourism D * (D.length : ℚ) = (D.map (·.tourismIndex)).sum := by
  refine ⟨?_, ?_, ?_, ?_⟩
  · simp [kpiTownCount, seriesNunique, List.card_toFinset]
  · simp [kpiHotelsSum, seriesSum_eq_sum]
  · intro z hz
    rw [kpiHotelsSum, seriesSum_eq_sum, hz, intTrunc]
    by_cases h0 : (0 : ℚ) ≤ (z : ℚ)
    · rw [if_pos h0, Int.floor_intCast]
    · rw [if_neg h0, Int.ceil_intCast]
  · have h0 : (D.length : ℚ) ≠ 0 := by
      have hne : D.length ≠ 0 := fun hh => h (List.length_eq_zero.mp hh)
      exact_mod_cast hne
    rw [kpiAvgTourism, seriesMean, seriesSum_eq_sum, List.length_map]
    exact div_mul_cancel₀ _ h0

/-- Witness for C5 (amended) at the spec's sample dataset. -/
theorem kpi_formulas_witness :
    sampleD ≠ [] ∧
      (kpiTownCount sampleD = (sampleD.map (·.town)).toFinset.card ∧
        kpiHotelsSum sampleD = intTrunc ((sampleD.map (·.hotels)).sum) ∧
        (∀ z : ℤ, (sampleD.map (·.hotels)).sum = (z : ℚ) →
          (kpiHotelsSum sampleD : ℚ) = (sampleD.map (·.hotels)).sum) ∧
        kpiAvgTourism sampleD * (sampleD.length : ℚ) = (sampleD.map (·.tourismIndex)).sum) :=
  ⟨by decide, kpi_formulas sampleD (by decide)⟩

/-- C10: the filter section never mutates the loaded frame: `df.copy()`
and boolean-mask selection each allocate a fresh frame, so after the
section runs, `df` is the frame originally loaded and `filtered` holds the
filter result computed from it. -/
theorem runFilterSection_frame (s : AppState) (F : FilterState) :
    (runFilterSection s F).df = s.df ∧
      (runFilterSection s F).filtered = applyFilters s.df F :=
  ⟨rfl, rfl⟩

lemma charToDigit_digitChar {d : ℕ} (h : d < 10) : charToDigit (digitChar d) = d := by
  interval_cases d <;> decide

lemma digitChar_isDigit {d : ℕ} (h : d < 10) : (digitChar d).isDigit = true := by
  interval_cases d <;> decide

lemma isDigit_ne_dot {c : Char} (h : c.isDigit = true) : c ≠ '.' := by
  intro he
  subst he
  exact absurd h (by decide)

lemma isDigit_ne_dash {c : Char} (h : c.isDigit = true) : c ≠ '-' := by
  intro he
  subst he
  exact absurd h (by decide)

lemma toDigitsRev_eq (fuel n : ℕ) (h : n ≤ fuel) : toDigitsRev fuel n = Nat.digits 10 n := by
  induction fuel generalizing n with
  | zero =>
    have hn : n = 0 := Nat.le_zero.mp h
    subst hn
    simp [toDigitsRev]
  | succ fuel ih =>
    by_cases hn : n = 0
    · subst hn
      simp [toDigitsRev]
    · have hlt : n / 10 < n := Nat.div_lt_self (Nat.pos_of_ne_zero hn) (by norm_num)
      have hle : n / 10 ≤ fuel := by omega
      simp only [toDigitsRev, if_neg hn, ih _ hle]
      rw [Nat.digits_def' (by norm_num : (1 : ℕ) < 10) (Nat.pos_of_ne_zero hn)]

lemma natToChars_eq (n : ℕ) : natToChars n = (Nat.digits 10 n).reverse.map digitChar := by
  rw [natToChars, toDigitsRev_eq n n le_rfl]

lemma mem_natToChars {c : Char} {n : ℕ} (h : c ∈ natToChars n) :
    ∃ d, d < 10 ∧ c = digitChar d := by
  rw [natToChars_eq] at h
  rcases List.mem_map.mp h with ⟨d, hd, rfl⟩
  exact ⟨d, Nat.digits_lt_base (by norm_num) (List.mem_reverse.mp hd), rfl⟩

lemma natToChars_digits (n : ℕ) : (natToChars n).all Char.isDigit = true := by
  rw [List.all_eq_true]
  intro c hc
  rcases mem_natToChars hc with ⟨d, hd, rfl⟩
  exact digitChar_isDigit hd

lemma dot_not_mem_natToChars (n : ℕ) : '.' ∉ natToChars n := by
  intro hmem
  rcases mem_natToChars hmem with ⟨d, hd, he⟩
  exact isDigit_ne_dot (digitChar_isDigit hd) he.symm

lemma digitsVal_natToChars (n : ℕ) : digitsVal (natToChars n) = n := by
  rw [digitsVal, natToChars_eq, List.map_reverse, List.map_map]
  have h2 : (Nat.digits 10 n).reverse.map (charToDigit ∘ digitChar) =
      (Nat.digits 10 n).reverse := by
    have h3 : ∀ d ∈ (Nat.digits 10 n).reverse, (charToDigit ∘ digitChar) d = id d :=
      fun d hd =>
        charToDigit_digitChar (Nat.digits_lt_base (by norm_num) (List.mem_reverse.mp hd))
    rw [List.map_congr_left h3, List.map_id]
  rw [h2, List.reverse_reverse, Nat.ofDigits_digits]

lemma natToChars_ne_nil {n : ℕ} (h : n ≠ 0) : natToChars n ≠ [] := by
  rw [natToChars_eq]
  simp [Nat.digits_ne_nil_iff_ne_zero, h]

lemma natToChars_length_le {n e : ℕ} (h : n < 10 ^ e) : (natToChars n).length ≤ e := by
  rw [natToChars_eq]
  simp only [List.length_map, List.length_reverse]
  by_cases hn : n = 0
  · subst hn
    simp
  · rw [Nat.digits_len 10 n (by norm_num) hn]
    have hlog := (Nat.lt_pow_iff_log_lt (by norm_num : 1 < 10) hn).mp h
    omega

lemma intChars_digits (n : ℕ) : (intChars n).all Char.isDigit = true := by
  by_cases h : n = 0
  · subst h
    decide
  · rw [intChars, if_neg h]
    exact natToChars_digits n

lemma intChars_ne_nil (n : ℕ) : intChars n ≠ [] := by
  by_cases h : n = 0
  · subst h
    decide
  · rw [intChars, if_neg h]
    exact natToChars_ne_nil h

lemma dot_not_mem_intChars (n : ℕ) : '.' ∉ intChars n := by
  by_cases h : n = 0
  · subst h
    decide
  · rw [intChars, if_neg h]
    exact dot_not_mem_natToChars n

lemma digitsVal_intChars (n : ℕ) : digitsVal (intChars n) = n := by
  by_cases h : n = 0
  · subst h
    decide
  · rw [intChars, if_neg h]
    exact digitsVal_natToChars n

lemma padZeros_length {e : ℕ} {l : List Char} (h : l.length ≤ e) :
    (padZeros e l).length = e := by
  simp [padZeros]
  omega

lemma padZeros_digits {e : ℕ} {l : List Char} (h : l.all Char.isDigit = true) :
    (padZeros e l).all Char.isDigit = true := by
  rw [List.all_eq_true] at *
  intro c hc
  rcases List.mem_append.mp hc with h1 | h2
  · have hz := List.eq_of_mem_replicate h1
    subst hz
    decide
  · exact h c h2

lemma dot_not_mem_padZeros {e : ℕ} {l : List Char} (h : '.' ∉ l) : '.' ∉ padZeros e l := by
  intro hc
  rcases List.mem_append.mp hc with h1 | h2
  · exact absurd (List.eq_of_mem_replicate h1) (by decide)
  · exact h h2

lemma ofDigits_replicate_zero (k : ℕ) : Nat.ofDigits 10 (List.replicate k 0) = 0 := by
  induction k with
  | zero => rfl
  | succ k ih => simp [List.replicate_succ, Nat.ofDigits_cons, ih]

lemma digitsVal_padZeros (e : ℕ) (l : List Char) :
    digitsVal (padZeros e l) = digitsVal l := by
  rw [digitsVal, digitsVal, padZeros, List.reverse_append, List.map_append,
    Nat.ofDigits_append, List.reverse_replicate, List.map_replicate]
  have h0 : charToDigit '0' = 0 := rfl
  rw [h0, ofDigits_replicate_zero]
  simp

lemma splitOnDot_no_dot {l : List Char} (h : '.' ∉ l) : splitOnDot l = [l] := by
  induction l with
  | nil => rfl
  | cons c rest ih =>
    have hc : c ≠ '.' := fun he => h (he ▸ List.mem_cons_self c rest)
    have hrest : '.' ∉ rest := fun hm => h (List.mem_cons_of_mem _ hm)
    simp only [splitOnDot, if_neg hc, ih hrest]

lemma splitOnDot_append {l1 l2 : List Char} (h : '.' ∉ l1) :
    splitOnDot (l1 ++ '.' :: l2) = l1 :: splitOnDot l2 := by
  induction l1 with
  | nil => simp [splitOnDot]
  | cons c cs ih =>
    have hc : c ≠ '.' := fun he => h (he ▸ List.mem_cons_self c cs)
    have hcs : '.' ∉ cs := fun hm => h (List.mem_cons_of_mem _ hm)
    simp only [List.cons_append, splitOnDot, if_neg hc, List.append_eq]
    rw [ih hcs]

lemma parseUnsigned_render (ip fr e : ℕ) (hlt : fr < 10 ^ e) :
    parseUnsigned (intChars ip ++ '.' :: padZeros e (natToChars fr)) =
      some ((ip : ℚ) + (fr : ℚ) / (10 ^ e : ℚ)) := by
  have hsplit : splitOnDot (intChars ip ++ '.' :: padZeros e (natToChars fr)) =
      [intChars ip, padZeros e (natToChars fr)] := by
    rw [splitOnDot_append (dot_not_mem_intChars ip),
      splitOnDot_no_dot (dot_not_mem_padZeros (dot_not_mem_natToChars fr))]
  have h1 := intChars_digits ip
  have h2 := padZeros_digits (e := e) (natToChars_digits fr)
  simp only [parseUnsigned, hsplit, h1, h2, Bool.and_self, if_true]
  rw [digitsVal_intChars, digitsVal_padZeros, digitsVal_natToChars,
    padZeros_length (natToChars_length_le hlt)]

lemma renderNum_cast (q : ℚ) (hq : isDecimalQ q) :
    ((renderNum q : ℤ) : ℚ) / ((10 : ℚ) ^ q.den) = q := by
  have hppos : 0 < 10 ^ q.den := pow_pos (by norm_num) q.den
  have hc : (q.den : ℚ) * ((10 ^ q.den / q.den : ℕ) : ℚ) = (10 : ℚ) ^ q.den := by
    have hmul := Nat.mul_div_cancel' hq
    exact_mod_cast hmul
  have hden0 : (q.den : ℚ) ≠ 0 := by
    exact_mod_cast q.den_nz
  have hnum : (q.num : ℚ) = q * (q.den : ℚ) := by
    have h1 := congrArg (fun x : ℚ => x * (q.den : ℚ)) (Rat.num_div_den q)
    simp only [div_mul_cancel₀ _ hden0] at h1
    exact h1
  rw [renderNum]
  rw [div_eq_iff (show ((10 : ℚ) ^ q.den) ≠ 0 by positivity)]
  rw [Int.cast_mul, Int.cast_natCast, hnum, ← hc]
  ring

theorem parseRat_renderRat (q : ℚ) (hq : isDecimalQ q) :
    parseRat (renderRat q) = some q := by
  have hppos : 0 < 10 ^ q.den := pow_pos (by norm_num) q.den
  have hmod : (renderNum q).natAbs % 10 ^ q.den < 10 ^ q.den := Nat.mod_lt _ hppos
  have hbody : parseUnsigned (renderBody q) =
      some ((((renderNum q).natAbs / 10 ^ q.den : ℕ) : ℚ) +
        (((renderNum q).natAbs % 10 ^ q.den : ℕ) : ℚ) / ((10 : ℚ) ^ q.den)) := by
    rw [renderBody]
    exact parseUnsigned_render _ _ _ hmod
  have hval : ((((renderNum q).natAbs / 10 ^ q.den : ℕ) : ℚ) +
      (((renderNum q).natAbs % 10 ^ q.den : ℕ) : ℚ) / ((10 : ℚ) ^ q.den)) =
      (((renderNum q).natAbs : ℕ) : ℚ) / ((10 : ℚ) ^ q.den) := by
    have hsum : (renderNum q).natAbs / 10 ^ q.den * 10 ^ q.den +
        (renderNum q).natAbs % 10 ^ q.den = (renderNum q).natAbs := Nat.div_add_mod' _ _
    have hcast := congrArg (fun n : ℕ => (n : ℚ)) hsum
    push_cast at hcast
    have hp0 : ((10 : ℚ) ^ q.den) ≠ 0 := by positivity
    field_simp
    linear_combination hcast
  have habs : (((renderNum q).natAbs : ℕ) : ℚ) = |((renderNum q : ℤ) : ℚ)| := by
    rw [Int.cast_natAbs, Int.cast_abs]
  by_cases hneg : renderNum q < 0
  · have hrender : renderRat q = ⟨'-' :: renderBody q⟩ := by
      simp only [renderRat]
      rw [if_pos hneg]
    have hdata : (⟨'-' :: renderBody q⟩ : String).data = '-' :: renderBody q := rfl
    rw [hrender]
    simp only [parseRat, hdata, List.head?_cons, List.tail_cons, if_pos]
    rw [hbody]
    simp only [Option.map_some']
    rw [hval, habs, abs_of_neg (show ((renderNum q : ℤ) : ℚ) < 0 by exact_mod_cast hneg),
      neg_div, neg_neg, renderNum_cast q hq]
  · have hrender : renderRat q = ⟨renderBody q⟩ := by
      simp only [renderRat]
      rw [if_neg hneg]
    have hdata : (⟨renderBody q⟩ : String).data = renderBody q := rfl
    obtain ⟨c, cs, hcc⟩ :=
      List.exists_cons_of_ne_nil (intChars_ne_nil ((renderNum q).natAbs / 10 ^ q.den))
    have hcdig : c.isDigit = true := by
      have hmem : c ∈ intChars ((renderNum q).natAbs / 10 ^ q.den) := by
        rw [hcc]
        exact List.mem_cons_self _ _
      have hall := intChars_digits ((renderNum q).natAbs / 10 ^ q.den)
      rw [List.all_eq_true] at hall
      exact hall c hmem
    have hhead : (renderBody q).head? = some c := by
      rw [renderBody, hcc, List.cons_append, List.head?_cons]
    have hcond : ¬((renderBody q).head? = some '-') := by
      rw [hhead]
      intro hcon
      exact isDigit_ne_dash hcdig (Option.some.inj hcon)
    rw [hrender]
    simp only [parseRat, hdata]
    rw [if_neg hcond, hbody, hval, habs,
      abs_of_nonneg (show (0 : ℚ) ≤ ((renderNum q : ℤ) : ℚ) by exact_mod_cast not_lt.mp hneg),
      renderNum_cast q hq]

lemma parseRow_recordToRow (r : Record) (h1 : isDecimalQ r.hotels)
    (h2 : isDecimalQ r.restaurants) (h3 : isDecimalQ r.tourismIndex) :
    parseRow (recordToRow r) = some r := by
  simp only [recordToRow, parseRow, parseRat_renderRat r.hotels h1,
    parseRat_renderRat r.restaurants h2, parseRat_renderRat r.tourismIndex h3]

lemma parseRows_map (rows : List Record)
    (h : ∀ r ∈ rows, parseRow (recordToRow r) = some r) :
    parseRows (rows.map recordToRow) = some rows := by
  induction rows with
  | nil => rfl
  | cons r rest ih =>
    simp only [List.map_cons, parseRows, h r (List.mem_cons_self r rest),
      ih fun x hx => h x (List.mem_cons_of_mem r hx)]

/-- C7 counterexample: with a pass-through extra column in the filtered
view, the exported header is not the four logical fields alone — the extra
column is appended, contradicting the claim's "exactly the four logical
fields". -/
theorem toCsvRows_header_extra_col :
    (toCsvRows { extraCols := ["Extra"], rows := [] }).head? ≠ some logicalHeader := by
  decide

lemma filterMap_length_of_isSome {α β : Type} {f : α → Option β} {l : List α}
    (h : ∀ a ∈ l, (f a).isSome = true) : (l.filterMap f).length = l.length := by
  induction l with
  | nil => rfl
  | cons a tl ih =>
    rw [List.filterMap_cons]
    obtain ⟨b, hb⟩ := Option.isSome_iff_exists.mp (h a (List.mem_cons_self a tl))
    rw [hb]
    simp only [List.length_cons]
    rw [ih fun x hx => h x (List.mem_cons_of_mem a hx)]

lemma range_filterMap_getElem (ec : List String) :
    (List.range ec.length).filterMap (fun i => ec[i]?) = ec := by
  induction ec with
  | nil => rfl
  | cons a tl ih =>
    rw [List.length_cons, List.range_succ_eq_map, List.filterMap_cons, List.filterMap_map]
    simp only [List.getElem?_cons_zero]
    have hcomp : ((fun i : ℕ => (a :: tl)[i]?) ∘ Nat.succ) = fun i : ℕ => tl[i]? := by
      funext i
      simp [Function.comp, List.getElem?_cons_succ]
    rw [hcomp, ih]

lemma extra_mem_canonical {n i : ℕ} (hc : ColId.extra i ∈ canonicalLayout n) : i < n := by
  rw [canonicalLayout] at hc
  rcases List.mem_append.mp hc with h1 | h2
  · simp at h1
  · rcases List.mem_map.mp h2 with ⟨j, hj, hje⟩
    injection hje with hji
    subst hji
    exact List.mem_range.mp hj

lemma headerName_isSome {ec : List String} {c : ColId}
    (hc : c ∈ canonicalLayout ec.length) : (headerName ec c).isSome = true := by
  cases c with
  | town => rfl
  | hotels => rfl
  | restaurants => rfl
  | tourismIndex => rfl
  | extra i =>
    have hi : i < ec.length := extra_mem_canonical hc
    simp only [headerName]
    rw [List.getElem?_eq_getElem hi]
    rfl

lemma rowCell_isSome {n : ℕ} {r : Record} {c : ColId}
    (hc : c ∈ canonicalLayout n) (hlen : r.extras.length = n) :
    (rowCell r c).isSome = true := by
  cases c with
  | town => rfl
  | hotels => rfl
  | restaurants => rfl
  | tourismIndex => rfl
  | extra i =>
    have hi : i < r.extras.length := by
      rw [hlen]
      exact extra_mem_canonical hc
    simp only [rowCell]
    rw [List.getElem?_eq_getElem hi]
    rfl

lemma canonicalLayout_header (ec : List String) :
    (canonicalLayout ec.length).filterMap (headerName ec) = logicalHeader ++ ec := by
  rw [canonicalLayout, List.filterMap_append, List.filterMap_map]
  congr 1
  have hcomp : (headerName ec ∘ ColId.extra) = fun i : ℕ => ec[i]? := rfl
  rw [hcomp, range_filterMap_getElem]

lemma toCsvRows_eq_canonical (t : Table)
    (h : ∀ r ∈ t.rows, r.extras.length = t.extraCols.length) :
    toCsvRowsAt (canonicalLayout t.extraCols.length) t = toCsvRows t := by
  rw [toCsvRowsAt, toCsvRows, canonicalLayout_header]
  congr 1
  apply List.map_congr_left
  intro r hr
  rw [canonicalLayout, List.filterMap_append, List.filterMap_map]
  have hcomp : (rowCell r ∘ ColId.extra) = fun i : ℕ => r.extras[i]? := rfl
  rw [hcomp, ← h r hr, range_filterMap_getElem]
  rfl

/-- C7 (amended): for every filtered view and every source column
arrangement (the four logical columns and the pass-through columns, each
once, in whatever order the source frame has them — the code never
rearranges columns), the export is deterministic in the input sequence
and arrangement, consists of exactly one header row followed by one row
per record with no row-index cell; the header lists exactly the four
logical field names together with the pass-through column names (so it
is exactly the four fields precisely when the source has no extra
columns), and each data row lists that record's cells in the same
arrangement, with one cell per header field. -/
theorem toCsvRowsAt_structure (t u : Table) (L : List ColId)
    (hL : L.Perm (canonicalLayout t.extraCols.length))
    (hrows : ∀ r ∈ t.rows, r.extras.length = t.extraCols.length)
    (hc : t.extraCols = u.extraCols) (hr : t.rows = u.rows) :
    toCsvRowsAt L t = toCsvRowsAt L u ∧
      (toCsvRowsAt L t).length = t.rows.length + 1 ∧
      (toCsvRowsAt L t).head? = some (L.filterMap (headerName t.extraCols)) ∧
      (L.filterMap (headerName t.extraCols)).Perm (logicalHeader ++ t.extraCols) ∧
      (toCsvRowsAt L t).tail = t.rows.map (fun r => L.filterMap (rowCell r)) ∧
      ∀ row ∈ (toCsvRowsAt L t).tail,
        row.length = (L.filterMap (headerName t.extraCols)).length := by
  have hmemL : ∀ c ∈ L, c ∈ canonicalLayout t.extraCols.length := fun c hcm =>
    hL.mem_iff.mp hcm
  have hdrlen : (L.filterMap (headerName t.extraCols)).length = L.length :=
    filterMap_length_of_isSome fun c hcm => headerName_isSome (hmemL c hcm)
  refine ⟨?_, ?_, rfl, ?_, rfl, ?_⟩
  · rw [toCsvRowsAt, toCsvRowsAt, hc, hr]
  · simp [toCsvRowsAt]
  · have hch := canonicalLayout_header t.extraCols
    exact hch ▸ hL.filterMap (headerName t.extraCols)
  · intro row hrow
    simp only [toCsvRowsAt, List.tail_cons] at hrow
    rcases List.mem_map.mp hrow with ⟨r, hrmem, rfl⟩
    rw [filterMap_length_of_isSome fun c hcm =>
      rowCell_isSome (hmemL c hcm) (hrows r hrmem), hdrlen]

/-- Witness for C7 (amended) at the sample table under a non-canonical
arrangement that puts the pass-through column first. -/
theorem toCsvRowsAt_structure_witness :
    (scrambledLayout.Perm (canonicalLayout sampleTable.extraCols.length) ∧
      ∀ r ∈ sampleTable.rows, r.extras.length = sampleTable.extraCols.length) ∧
      (toCsvRowsAt scrambledLayout sampleTable = toCsvRowsAt scrambledLayout sampleTable ∧
        (toCsvRowsAt scrambledLayout sampleTable).length = sampleTable.rows.length + 1 ∧
        (toCsvRowsAt scrambledLayout sampleTable).head? =
          some (scrambledLayout.filterMap (headerName sampleTable.extraCols)) ∧
        (scrambledLayout.filterMap (headerName sampleTable.extraCols)).Perm
          (logicalHeader ++ sampleTable.extraCols) ∧
        (toCsvRowsAt scrambledLayout sampleTable).tail =
          sampleTable.rows.map (fun r => scrambledLayout.filterMap (rowCell r)) ∧
        ∀ row ∈ (toCsvRowsAt scrambledLayout sampleTable).tail,
          row.length =
            (scrambledLayout.filterMap (headerName sampleTable.extraCols)).length) :=
  ⟨⟨by decide, by decide⟩,
   toCsvRowsAt_structure sampleTable sampleTable scrambledLayout (by decide) (by decide)
     rfl rfl⟩

/-- C8: export round-trip: parsing the exported rows of a filtered view
whose numeric cells have finite decimal expansions (as every float cell
does) recovers the view exactly — same row count and identical field
values. -/
theorem export_round_trip (t : Table)
    (h : ∀ r ∈ t.rows,
      isDecimalQ r.hotels ∧ isDecimalQ r.restaurants ∧ isDecimalQ r.tourismIndex) :
    fromCsvRows (toCsvRows t) = some t := by
  have htake : (logicalHeader ++ t.extraCols).take 4 = logicalHeader := by
    have hlen : logicalHeader.length = 4 := rfl
    rw [← hlen, List.take_left]
  have hdrop : (logicalHeader ++ t.extraCols).drop 4 = t.extraCols := by
    have hlen : logicalHeader.length = 4 := rfl
    rw [← hlen, List.drop_left]
  have hrows : parseRows (t.rows.map recordToRow) = some t.rows :=
    parseRows_map t.rows fun r hr =>
      parseRow_recordToRow r (h r hr).1 (h r hr).2.1 (h r hr).2.2
  simp only [toCsvRows, fromCsvRows, htake, if_pos, hrows, Option.map_some', hdrop]

/-- Witness for C8 at the sample table. -/
theorem export_round_trip_witness :
    (∀ r ∈ sampleTable.rows,
        isDecimalQ r.hotels ∧ isDecimalQ r.restaurants ∧ isDecimalQ r.tourismIndex) ∧
      fromCsvRows (toCsvRows sampleTable) = some sampleTable :=
  ⟨by decide, export_round_trip sampleTable (by decide)⟩

end Tourism
